import Mathlib

/-!
Shallow embedding of the SportsBot odds API
(`services/api/app/main.py`): the `/api/odds` handler `get_odds`, the
`/api/games` handler `get_upcoming_games`, and the FastAPI
query-parameter validation that runs before each handler body.

Modelling choices:
* Timestamps are abstract integer instants; `timedelta(hours=h)` is
  `3600 * h` seconds.  The `isoformat` canonicalization of a timestamp
  is injective and order-preserving, so it is modelled by `canonTime`,
  the identity on the abstract instant.
* Python floats (`point_spread`, `ev_percentage`, `min_ev`) only flow
  through comparisons here and are modelled as rationals.
* The Firestore client is modelled as a function from the issued
  `StoreQuery` to either an error message (a raised exception) or the
  list of documents streamed back.
* An insertion-ordered Python `dict` is modelled as an association
  list to which new keys are appended at the end.
-/

/-- One stored odds document (`db.collection('odds')` row), with its
store-assigned document id.  Fields follow `models.py` / the ingested
record shape read by `main.py`. -/
structure OddsDoc where
  docId : String
  game_id : String
  sport : String
  home_team : String
  away_team : String
  commence_time : Int
  bookmaker : String
  team : String
  point_spread : Rat
  odds : Int
  ev_percentage : Option Rat
  is_positive_ev : Bool
  last_update : Int
  ingested_at : Int
deriving DecidableEq, Repr

/-- A record of the `/api/odds` response: the document data with the
document id added and timestamp fields canonicalized. -/
structure OddsOut where
  id : String
  game_id : String
  sport : String
  home_team : String
  away_team : String
  commence_time : Int
  bookmaker : String
  team : String
  point_spread : Rat
  odds : Int
  ev_percentage : Option Rat
  is_positive_ev : Bool
  last_update : Int
  ingested_at : Int
deriving DecidableEq, Repr

/-- Raw query parameters of `/api/odds` as they arrive at FastAPI,
before validation; `none` means the parameter was omitted. -/
structure RawOddsQuery where
  bookmaker : Option String
  team : Option String
  min_ev : Option Rat
  hours_ahead : Option Int
  limit : Option Int
deriving DecidableEq, Repr

/-- Validated parameters of `/api/odds` (defaults applied). -/
structure OddsParams where
  bookmaker : Option String
  team : Option String
  min_ev : Option Rat
  hours_ahead : Int
  limit : Int
deriving DecidableEq, Repr

/-- The single range query a handler issues to the document store:
`commence_time > lowerExclusive`, `commence_time <= upperInclusive`,
ordered by `commence_time`, with a store-side row cap. -/
structure StoreQuery where
  lowerExclusive : Int
  upperInclusive : Int
  ascending : Bool
  cap : Int
deriving DecidableEq, Repr

/-- How a request can fail: FastAPI parameter validation (a
client-error-class 422 naming the offending parameter, raised before
the handler body runs), an explicit `HTTPException(status_code,
detail)` raised by the handler, or an exception that escapes the
handler uncaught. -/
inductive ApiError where
  | validation : String → ApiError
  | http : Int → String → ApiError
  | uncaught : String → ApiError
deriving DecidableEq, Repr

/-- The store as seen by a handler: a function from the issued query to
either a raised exception's message or the streamed documents. -/
abbrev Store := StoreQuery → Except String (List OddsDoc)

/-- `isoformat` canonicalization of a timestamp: injective and
order-preserving, hence the identity on the abstract instant. -/
def canonTime (t : Int) : Int := t

/-- `data['id'] = doc.id` plus the timestamp-field conversion loop of
`get_odds`. -/
def toOut (d : OddsDoc) : OddsOut :=
  { id := d.docId
    game_id := d.game_id
    sport := d.sport
    home_team := d.home_team
    away_team := d.away_team
    commence_time := canonTime d.commence_time
    bookmaker := d.bookmaker
    team := d.team
    point_spread := d.point_spread
    odds := d.odds
    ev_percentage := d.ev_percentage
    is_positive_ev := d.is_positive_ev
    last_update := canonTime d.last_update
    ingested_at := canonTime d.ingested_at }

/-- FastAPI validation of `/api/odds` parameters:
`hours_ahead : int = Query(48, ge=1, le=168)` and
`limit : int = Query(100, le=500)`; `bookmaker`, `team`, `min_ev` are
unconstrained optionals. -/
def parseOddsQuery (raw : RawOddsQuery) : Except ApiError OddsParams :=
  let h := raw.hours_ahead.getD 48
  let l := raw.limit.getD 100
  if h < 1 ∨ 168 < h then .error (.validation "hours_ahead")
  else if 500 < l then .error (.validation "limit")
  else .ok ⟨raw.bookmaker, raw.team, raw.min_ev, h, l⟩

/-- FastAPI validation of `/api/games` parameters:
`hours_ahead : int = Query(48, ge=1, le=168)`. -/
def parseGamesQuery (raw : Option Int) : Except ApiError Int :=
  let h := raw.getD 48
  if h < 1 ∨ 168 < h then .error (.validation "hours_ahead") else .ok h

/-- The range query built by `get_odds`: `commence_time > now`,
`commence_time <= now + timedelta(hours=hours_ahead)`, ascending,
`.limit(limit * 5)`. -/
def oddsQuery (now : Int) (p : OddsParams) : StoreQuery :=
  { lowerExclusive := now
    upperInclusive := now + 3600 * p.hours_ahead
    ascending := true
    cap := p.limit * 5 }

/-- The range query built by `get_upcoming_games`: same bounds and
ordering, fixed `.limit(500)`. -/
def gamesQuery (now : Int) (hours_ahead : Int) : StoreQuery :=
  { lowerExclusive := now
    upperInclusive := now + 3600 * hours_ahead
    ascending := true
    cap := 500 }

/-- The in-Python secondary filter of `get_odds`, one document at a
time: `if bookmaker and data.get('bookmaker') != bookmaker: continue`,
likewise for `team`, then
`if min_ev is not None: if data.get('ev_percentage') is None or
data.get('ev_percentage') < min_ev: continue`.
Note the Python truthiness test: an empty-string `bookmaker`/`team`
parameter disables that filter. -/
def keepDoc (p : OddsParams) (d : OddsDoc) : Bool :=
  (match p.bookmaker with
   | none => true
   | some b => b == "" || d.bookmaker == b)
  &&
  (match p.team with
   | none => true
   | some t => t == "" || d.team == t)
  &&
  (match p.min_ev with
   | none => true
   | some m =>
     match d.ev_percentage with
     | none => false
     | some e => decide (m ≤ e))

/-- The accumulation loop of `get_odds`: keep documents passing the
secondary filters, append the converted record, and
`if len(results) >= limit: break`. -/
def oddsLoop (p : OddsParams) : List OddsDoc → List OddsOut → List OddsOut
  | [], results => results
  | d :: docs, results =>
    if keepDoc p d then
      if p.limit ≤ ((results ++ [toOut d]).length : Int) then results ++ [toOut d]
      else oddsLoop p docs (results ++ [toOut d])
    else oddsLoop p docs results

/-- The `/api/odds` handler, including the validation FastAPI performs
before its body runs. -/
def get_odds (raw : RawOddsQuery) (now : Int) (store : Store) :
    Except ApiError (List OddsOut) :=
  match parseOddsQuery raw with
  | .error e => .error e
  | .ok p =>
    match store (oddsQuery now p) with
    | .error msg =>
      .error (.http 500
        ("Query failed. You may need to create a Firestore index. Error: " ++ msg))
    | .ok docs => .ok (oddsLoop p docs [])

/-- One `{team, point_spread, odds}` entry of a bookmaker's list in a
`GameView`. -/
structure BookEntry where
  team : String
  point_spread : Rat
  odds : Int
deriving DecidableEq, Repr

/-- One aggregated game of the `/api/games` response.  `bookmakers` is
the insertion-ordered dict from bookmaker name to its entries. -/
structure GameView where
  game_id : String
  home_team : String
  away_team : String
  commence_time : Int
  bookmakers : List (String × List BookEntry)
deriving DecidableEq, Repr

/-- The `{team, point_spread, odds}` dict appended for a document. -/
def entryOf (d : OddsDoc) : BookEntry :=
  { team := d.team, point_spread := d.point_spread, odds := d.odds }

/-- `if bookmaker not in view['bookmakers']: ... = []` followed by
`...append(entry)` on the insertion-ordered dict. -/
def addBook (m : List (String × List BookEntry)) (k : String) (e : BookEntry) :
    List (String × List BookEntry) :=
  if m.any (fun q => q.1 == k) then
    m.map (fun q => if q.1 == k then (q.1, q.2 ++ [e]) else q)
  else m ++ [(k, [e])]

/-- Adding one document's odds entry to an existing `GameView`. -/
def addEntry (g : GameView) (d : OddsDoc) : GameView :=
  { g with bookmakers := addBook g.bookmakers d.bookmaker (entryOf d) }

/-- The fresh `GameView` created the first time a game id is seen,
seeded from that document. -/
def newView (d : OddsDoc) : GameView :=
  { game_id := d.game_id
    home_team := d.home_team
    away_team := d.away_team
    commence_time := canonTime d.commence_time
    bookmakers := [] }

/-- One iteration of the `get_upcoming_games` grouping loop on the
insertion-ordered `games_dict`: create the seeded view if the game id
is new, then append the bookmaker entry to the (possibly fresh) view. -/
def addDoc (gs : List GameView) (d : OddsDoc) : List GameView :=
  if gs.any (fun g => g.game_id == d.game_id) then
    gs.map (fun g => if g.game_id == d.game_id then addEntry g d else g)
  else gs ++ [addEntry (newView d) d]

/-- The whole grouping loop: `list(games_dict.values())` after folding
every streamed document into the dict. -/
def aggregate (docs : List OddsDoc) : List GameView :=
  docs.foldl addDoc []

/-- The `/api/games` handler.  Its body wraps no try/except around the
store query, so a store failure escapes as an uncaught exception. -/
def get_upcoming_games (raw : Option Int) (now : Int) (store : Store) :
    Except ApiError (List GameView) :=
  match parseGamesQuery raw with
  | .error e => .error e
  | .ok h =>
    match store (gamesQuery now h) with
    | .error msg => .error (.uncaught msg)
    | .ok docs => .ok (aggregate docs)

/-- Specification-shaped grouping of keyed entries: one output key per
distinct input key in first-encountered order, each key paired with
all its values in input arrival order. -/
def groupBooks : List (String × BookEntry) → List (String × List BookEntry)
  | [] => []
  | kv :: rest =>
    (kv.1, kv.2 :: (rest.filter (fun x => x.1 == kv.1)).map (fun x => x.2))
    :: groupBooks (rest.filter (fun x => !(kv.1 == x.1)))
termination_by l => l.length
decreasing_by
  simp only [List.length_cons]
  exact Nat.lt_succ_of_le (List.length_filter_le _ _)

/-- Specification-shaped aggregation: one `GameView` per distinct game
id in first-encountered order, seeded from the first document carrying
that id, whose bookmaker dict groups that game's documents by
bookmaker (keys in first-encountered order, entries in arrival
order). -/
def aggSpec : List OddsDoc → List GameView
  | [] => []
  | d :: rest =>
    { game_id := d.game_id
      home_team := d.home_team
      away_team := d.away_team
      commence_time := canonTime d.commence_time
      bookmakers := groupBooks
        (((d :: rest).filter (fun x => x.game_id == d.game_id)).map
          (fun x => (x.bookmaker, entryOf x))) }
    :: aggSpec (rest.filter (fun x => !(d.game_id == x.game_id)))
termination_by l => l.length
decreasing_by
  simp only [List.length_cons]
  exact Nat.lt_succ_of_le (List.length_filter_le _ _)

/-- A server-error-class HTTP rejection whose detail text carries the
underlying cause `c` as a substring. -/
def carriesCause (e : ApiError) (c : String) : Prop :=
  ∃ code detail, e = ApiError.http code detail ∧ 500 ≤ code ∧
    ∃ s t, detail = s ++ c ++ t

/-- A representative stored document used by concrete test inputs. -/
def baseDoc : OddsDoc :=
  { docId := "d0"
    game_id := "g0"
    sport := "basketball_nba"
    home_team := "Lakers"
    away_team := "Celtics"
    commence_time := 7200
    bookmaker := "draftkings"
    team := "Lakers"
    point_spread := -4
    odds := -110
    ev_percentage := none
    is_positive_ev := false
    last_update := 600
    ingested_at := 900 }

/-- `baseDoc` with a computed EV of 7, under another document id. -/
def evDoc : OddsDoc := { baseDoc with docId := "d1", ev_percentage := some 7 }

/-- `baseDoc` with a computed EV of 3, under another document id. -/
def lowEvDoc : OddsDoc := { baseDoc with docId := "d2", ev_percentage := some 3 }

/-- `baseDoc` with a later commence time, under another document id. -/
def laterDoc : OddsDoc :=
  { baseDoc with
    docId := "d3"
    game_id := "g1"
    bookmaker := "fanduel"
    commence_time := 10800 }

/-- Decidable equality of request outcomes, for evaluating the handlers
on concrete inputs. -/
instance exceptDecEq {ε α : Type} [DecidableEq ε] [DecidableEq α] :
    DecidableEq (Except ε α)
  | .error e, .error f =>
    if h : e = f then isTrue (by rw [h])
    else isFalse (by intro hc; cases hc; exact h rfl)
  | .error _, .ok _ => isFalse (by intro hc; cases hc)
  | .ok _, .error _ => isFalse (by intro hc; cases hc)
  | .ok a, .ok b =>
    if h : a = b then isTrue (by rw [h])
    else isFalse (by intro hc; cases hc; exact h rfl)

/-! ### Helper lemmas about the `/api/odds` accumulation loop -/

@[simp]
theorem toOut_commence_time (d : OddsDoc) :
    (toOut d).commence_time = d.commence_time := rfl

@[simp]
theorem toOut_bookmaker (d : OddsDoc) : (toOut d).bookmaker = d.bookmaker := rfl

@[simp]
theorem toOut_team (d : OddsDoc) : (toOut d).team = d.team := rfl

@[simp]
theorem toOut_ev_percentage (d : OddsDoc) :
    (toOut d).ev_percentage = d.ev_percentage := rfl

theorem oddsLoop_append_sublist (p : OddsParams) (docs : List OddsDoc) :
    ∀ acc : List OddsOut, ∃ t, oddsLoop p docs acc = acc ++ t ∧
      t.Sublist ((docs.filter (keepDoc p)).map toOut) := by
  induction docs with
  | nil => exact fun acc => ⟨[], by simp [oddsLoop], List.nil_sublist _⟩
  | cons d docs ih =>
    intro acc
    by_cases hk : keepDoc p d = true
    · by_cases hl : p.limit ≤ ((acc ++ [toOut d]).length : Int)
      · refine ⟨[toOut d], ?_, ?_⟩
        · simp only [oddsLoop]
          rw [if_pos hk, if_pos hl]
        · rw [List.filter_cons_of_pos hk, List.map_cons]
          exact (List.nil_sublist _).cons₂ _
      · obtain ⟨t, ht, hs⟩ := ih (acc ++ [toOut d])
        refine ⟨toOut d :: t, ?_, ?_⟩
        · simp only [oddsLoop]
          rw [if_pos hk, if_neg hl, ht, List.append_assoc, List.singleton_append]
        · rw [List.filter_cons_of_pos hk, List.map_cons]
          exact hs.cons₂ _
    · obtain ⟨t, ht, hs⟩ := ih acc
      refine ⟨t, ?_, ?_⟩
      · simp only [oddsLoop]
        rw [if_neg hk, ht]
      · rw [List.filter_cons_of_neg hk]
        exact hs

theorem mem_oddsLoop {p : OddsParams} {docs : List OddsDoc} {r : OddsOut}
    (h : r ∈ oddsLoop p docs []) :
    ∃ d, d ∈ docs ∧ keepDoc p d = true ∧ r = toOut d := by
  obtain ⟨t, ht, hs⟩ := oddsLoop_append_sublist p docs []
  rw [ht, List.nil_append] at h
  have hmem := hs.subset h
  obtain ⟨d, hd, rfl⟩ := List.mem_map.mp hmem
  exact ⟨d, (List.mem_filter.mp hd).1, (List.mem_filter.mp hd).2, rfl⟩

theorem oddsLoop_eq_take (p : OddsParams) (docs : List OddsDoc) :
    ∀ acc : List OddsOut, (acc.length : Int) < p.limit →
      oddsLoop p docs acc =
        acc ++ ((docs.filter (keepDoc p)).map toOut).take (p.limit - acc.length).toNat := by
  induction docs with
  | nil => intro acc _; simp [oddsLoop]
  | cons d docs ih =>
    intro acc hacc
    by_cases hk : keepDoc p d = true
    · by_cases hl : p.limit ≤ ((acc ++ [toOut d]).length : Int)
      · have h1 : (p.limit - acc.length).toNat = 1 := by
          simp only [List.length_append, List.length_cons, List.length_nil] at hl
          omega
        simp only [oddsLoop]
        rw [if_pos hk, if_pos hl, List.filter_cons_of_pos hk, List.map_cons, h1,
          List.take_succ_cons, List.take_zero]
      · have hacc' : ((acc ++ [toOut d]).length : Int) < p.limit := by
          push_neg at hl
          exact hl
        have h2 : (p.limit - acc.length).toNat
            = (p.limit - ((acc ++ [toOut d]).length : Int)).toNat + 1 := by
          simp only [List.length_append, List.length_cons, List.length_nil] at hacc' ⊢
          omega
        have hrec := ih (acc ++ [toOut d]) hacc'
        simp only [oddsLoop]
        rw [if_pos hk, if_neg hl, hrec, List.filter_cons_of_pos hk, List.map_cons, h2,
          List.take_succ_cons, List.append_assoc, List.singleton_append]
    · have hrec := ih acc hacc
      simp only [oddsLoop]
      rw [if_neg hk, hrec, List.filter_cons_of_neg hk]

theorem oddsLoop_nil_eq_take {p : OddsParams} (docs : List OddsDoc)
    (h : 1 ≤ p.limit) :
    oddsLoop p docs [] = ((docs.filter (keepDoc p)).map toOut).take p.limit.toNat := by
  have h0 : ((([] : List OddsOut)).length : Int) < p.limit := by simp; omega
  simpa using oddsLoop_eq_take p docs [] h0

theorem get_odds_ok {raw : RawOddsQuery} {now : Int} {store : Store}
    {p : OddsParams} {docs : List OddsDoc}
    (hp : parseOddsQuery raw = .ok p) (hst : store (oddsQuery now p) = .ok docs) :
    get_odds raw now store = .ok (oddsLoop p docs []) := by
  simp [get_odds, hp, hst]

/-! ### Helper lemmas about the `/api/games` grouping -/

theorem str_beq_symm (a b : String) : (a == b) = (b == a) := by
  by_cases h : a = b
  · subst h; rfl
  · rw [beq_eq_false_iff_ne.mpr h, beq_eq_false_iff_ne.mpr (Ne.symm h)]

@[simp]
theorem addEntry_game_id (g : GameView) (d : OddsDoc) :
    (addEntry g d).game_id = g.game_id := rfl

theorem foldl_addEntry_eq (ds : List OddsDoc) :
    ∀ g : GameView,
      ds.foldl addEntry g =
        { game_id := g.game_id
          home_team := g.home_team
          away_team := g.away_team
          commence_time := g.commence_time
          bookmakers := (ds.map (fun d => (d.bookmaker, entryOf d))).foldl
            (fun acc kv => addBook acc kv.1 kv.2) g.bookmakers } := by
  induction ds with
  | nil => intro g; rfl
  | cons d ds ih =>
    intro g
    rw [List.foldl_cons, ih (addEntry g d), List.map_cons, List.foldl_cons]
    rfl

theorem any_key_upd (m : List (String × List BookEntry)) (k x : String) (e : BookEntry) :
    ((m.map (fun q => if q.1 == k then (q.1, q.2 ++ [e]) else q)).any
      (fun q => q.1 == x)) = m.any (fun q => q.1 == x) := by
  induction m with
  | nil => rfl
  | cons q m ih =>
    simp only [List.map_cons, List.any_cons, ih]
    by_cases hq : q.1 == k
    · rw [if_pos hq]
    · rw [if_neg hq]

theorem foldl_addBook_split :
    ∀ (n : Nat) (l : List (String × BookEntry)) (m : List (String × List BookEntry)),
      l.length ≤ n →
      l.foldl (fun acc kv => addBook acc kv.1 kv.2) m =
        m.map (fun q => (q.1, q.2 ++ (l.filter (fun x => x.1 == q.1)).map (fun x => x.2)))
        ++ groupBooks (l.filter (fun x => !(m.any (fun q => q.1 == x.1)))) := by
  intro n
  induction n with
  | zero =>
    intro l m hl
    match l with
    | [] => simp [groupBooks]
    | x :: l => simp at hl
  | succ n ih =>
    intro l m hl
    match l with
    | [] => simp [groupBooks]
    | kv :: rest =>
      have hrest : rest.length ≤ n := by
        simp only [List.length_cons] at hl
        omega
      rw [List.foldl_cons]
      by_cases hIn : m.any (fun q => q.1 == kv.1) = true
      · have haddB : addBook m kv.1 kv.2
            = m.map (fun q => if q.1 == kv.1 then (q.1, q.2 ++ [kv.2]) else q) := by
          simp only [addBook]
          rw [if_pos hIn]
        rw [haddB, ih rest _ hrest]
        congr 1
        · rw [List.map_map]
          refine List.map_congr_left ?_
          intro q hq
          by_cases hqk : (q.1 == kv.1) = true
          · have hkq : (kv.1 == q.1) = true := by rw [str_beq_symm]; exact hqk
            have hfil := @List.filter_cons_of_pos (String × BookEntry)
              (fun x => x.1 == q.1) kv rest hkq
            simp only [Function.comp_apply, if_pos hqk, hfil, List.map_cons]
            simp [List.append_assoc]
          · have hkq : ¬((kv.1 == q.1) = true) := by rw [str_beq_symm]; exact hqk
            have hfil := @List.filter_cons_of_neg (String × BookEntry)
              (fun x => x.1 == q.1) kv rest hkq
            simp only [Function.comp_apply, if_neg hqk, hfil]
        · have h1 : (kv :: rest).filter (fun x => !(m.any (fun q => q.1 == x.1)))
              = rest.filter (fun x => !(m.any (fun q => q.1 == x.1))) := by
            refine List.filter_cons_of_neg ?_
            simp [hIn]
          rw [h1]
          congr 1
          refine List.filter_congr ?_
          intro x hx
          rw [any_key_upd]
      · have hIn' : m.any (fun q => q.1 == kv.1) = false := by
          cases h : m.any (fun q => q.1 == kv.1)
          · rfl
          · exact absurd h hIn
        have haddB : addBook m kv.1 kv.2 = m ++ [(kv.1, [kv.2])] := by
          simp only [addBook]
          rw [if_neg hIn]
        have hAkv := @List.filter_cons_of_pos (String × BookEntry)
          (fun x => !(m.any (fun q => q.1 == x.1))) kv rest (by simp [hIn'])
        rw [haddB, ih rest _ hrest, List.map_append, List.map_cons, List.map_nil, hAkv]
        simp only [groupBooks]
        rw [List.append_assoc, List.singleton_append]
        congr 1
        · refine List.map_congr_left ?_
          intro q hq
          have hq' : ¬((q.1 == kv.1) = true) := by
            intro hcon
            exact (List.any_eq_false.mp hIn' q hq) hcon
          have hkq : ¬((kv.1 == q.1) = true) := by rw [str_beq_symm]; exact hq'
          have hfil := @List.filter_cons_of_neg (String × BookEntry)
            (fun x => x.1 == q.1) kv rest hkq
          rw [hfil]
        congr 1
        · have h2 : (rest.filter (fun x => !(m.any (fun q => q.1 == x.1)))).filter
              (fun x => x.1 == kv.1) = rest.filter (fun x => x.1 == kv.1) := by
            rw [List.filter_filter]
            refine List.filter_congr ?_
            intro a ha
            by_cases hcase : (a.1 == kv.1) = true
            · have ha1 : a.1 = kv.1 := beq_iff_eq.mp hcase
              simp [hcase, ha1, hIn']
            · simp [hcase]
          rw [h2]
          simp [List.singleton_append]
        · congr 1
          rw [List.filter_filter]
          refine List.filter_congr ?_
          intro a ha
          simp [List.any_append, List.any_cons, List.any_nil, Bool.not_or,
            Bool.and_comm]

theorem foldl_addBook_nil (l : List (String × BookEntry)) :
    l.foldl (fun acc kv => addBook acc kv.1 kv.2) [] = groupBooks l := by
  have h := foldl_addBook_split l.length l [] le_rfl
  simpa [List.filter_true] using h

@[simp]
theorem newView_game_id (d : OddsDoc) : (newView d).game_id = d.game_id := rfl

theorem any_gid_upd (gs : List GameView) (d : OddsDoc) (x : String) :
    ((gs.map (fun g => if g.game_id == d.game_id then addEntry g d else g)).any
      (fun g => g.game_id == x)) = gs.any (fun g => g.game_id == x) := by
  induction gs with
  | nil => rfl
  | cons g gs ih =>
    simp only [List.map_cons, List.any_cons, ih]
    by_cases hg : (g.game_id == d.game_id) = true
    · rw [if_pos hg, addEntry_game_id]
    · rw [if_neg hg]

theorem foldl_addDoc_split :
    ∀ (n : Nat) (docs : List OddsDoc) (gs : List GameView),
      docs.length ≤ n →
      docs.foldl addDoc gs =
        gs.map (fun g => (docs.filter (fun x => x.game_id == g.game_id)).foldl addEntry g)
        ++ aggregate (docs.filter (fun x => !(gs.any (fun g => g.game_id == x.game_id)))) := by
  intro n
  induction n with
  | zero =>
    intro docs gs hl
    match docs with
    | [] => simp [aggregate]
    | x :: docs => simp at hl
  | succ n ih =>
    intro docs gs hl
    match docs with
    | [] => simp [aggregate]
    | d :: rest =>
      have hrest : rest.length ≤ n := by
        simp only [List.length_cons] at hl
        omega
      rw [List.foldl_cons]
      by_cases hIn : gs.any (fun g => g.game_id == d.game_id) = true
      · have haddD : addDoc gs d
            = gs.map (fun g => if g.game_id == d.game_id then addEntry g d else g) := by
          simp only [addDoc]
          rw [if_pos hIn]
        rw [haddD, ih rest _ hrest]
        congr 1
        · rw [List.map_map]
          refine List.map_congr_left ?_
          intro g hg
          by_cases hgd : (g.game_id == d.game_id) = true
          · have hdg : (d.game_id == g.game_id) = true := by rw [str_beq_symm]; exact hgd
            have hfil := @List.filter_cons_of_pos OddsDoc
              (fun x => x.game_id == g.game_id) d rest hdg
            simp only [Function.comp_apply, if_pos hgd, addEntry_game_id, hfil,
              List.foldl_cons]
          · have hdg : ¬((d.game_id == g.game_id) = true) := by rw [str_beq_symm]; exact hgd
            have hfil := @List.filter_cons_of_neg OddsDoc
              (fun x => x.game_id == g.game_id) d rest hdg
            simp only [Function.comp_apply, if_neg hgd, hfil]
        · have h1 := @List.filter_cons_of_neg OddsDoc
            (fun x => !(gs.any (fun g => g.game_id == x.game_id))) d rest (by simp [hIn])
          rw [h1]
          congr 1
          refine List.filter_congr ?_
          intro x hx
          rw [any_gid_upd]
      · have hIn' : gs.any (fun g => g.game_id == d.game_id) = false := by
          cases h : gs.any (fun g => g.game_id == d.game_id)
          · rfl
          · exact absurd h hIn
        have haddD : addDoc gs d = gs ++ [addEntry (newView d) d] := by
          simp only [addDoc]
          rw [if_neg hIn]
        have hAd := @List.filter_cons_of_pos OddsDoc
          (fun x => !(gs.any (fun g => g.game_id == x.game_id))) d rest (by simp [hIn'])
        rw [haddD, ih rest _ hrest, List.map_append, List.map_cons, List.map_nil, hAd]
        have hX : (rest.filter
            (fun x => !(gs.any (fun g => g.game_id == x.game_id)))).length ≤ n :=
          le_trans (List.length_filter_le _ _) hrest
        have hagg : aggregate (d :: rest.filter
              (fun x => !(gs.any (fun g => g.game_id == x.game_id))))
            = List.foldl addDoc [addEntry (newView d) d]
              (rest.filter (fun x => !(gs.any (fun g => g.game_id == x.game_id)))) := by
          simp only [aggregate, List.foldl_cons]
          rfl
        rw [hagg, ih _ [addEntry (newView d) d] hX]
        simp only [List.map_cons, List.map_nil, List.any_cons, List.any_nil,
          Bool.or_false, addEntry_game_id, newView_game_id]
        rw [List.append_assoc, List.singleton_append]
        congr 1
        · refine List.map_congr_left ?_
          intro g hg
          have hg' : ¬((g.game_id == d.game_id) = true) := by
            intro hcon
            exact (List.any_eq_false.mp hIn' g hg) hcon
          have hdg : ¬((d.game_id == g.game_id) = true) := by rw [str_beq_symm]; exact hg'
          have hfil := @List.filter_cons_of_neg OddsDoc
            (fun x => x.game_id == g.game_id) d rest hdg
          rw [hfil]
        congr 1
        · have h2 : (rest.filter
                (fun x => !(gs.any (fun g => g.game_id == x.game_id)))).filter
                (fun x => x.game_id == d.game_id)
              = rest.filter (fun x => x.game_id == d.game_id) := by
            rw [List.filter_filter]
            refine List.filter_congr ?_
            intro a ha
            by_cases hcase : (a.game_id == d.game_id) = true
            · have ha1 : a.game_id = d.game_id := beq_iff_eq.mp hcase
              simp [hcase, ha1, hIn']
            · simp [hcase]
          rw [h2]
        · congr 1
          rw [List.filter_filter]
          refine List.filter_congr ?_
          intro a ha
          simp [List.any_append, List.any_cons, List.any_nil, Bool.not_or,
            Bool.and_comm]

theorem aggregate_eq_aggSpec_fuel :
    ∀ (n : Nat) (docs : List OddsDoc), docs.length ≤ n → aggregate docs = aggSpec docs := by
  intro n
  induction n with
  | zero =>
    intro docs hl
    match docs with
    | [] => simp [aggregate, aggSpec]
    | d :: rest => simp at hl
  | succ n ih =>
    intro docs hl
    match docs with
    | [] => simp [aggregate, aggSpec]
    | d :: rest =>
      have hrest : rest.length ≤ n := by
        simp only [List.length_cons] at hl
        omega
      have h0 : aggregate (d :: rest)
          = List.foldl addDoc [addEntry (newView d) d] rest := by
        simp only [aggregate, List.foldl_cons]
        rfl
      rw [h0, foldl_addDoc_split rest.length rest [addEntry (newView d) d] le_rfl]
      simp only [List.map_cons, List.map_nil, List.any_cons, List.any_nil,
        Bool.or_false, addEntry_game_id, newView_game_id]
      rw [ih (rest.filter (fun x => !(d.game_id == x.game_id)))
        (le_trans (List.length_filter_le _ _) hrest)]
      simp only [aggSpec]
      rw [List.singleton_append]
      congr 1
      rw [foldl_addEntry_eq]
      have hd : (d.game_id == d.game_id) = true := by simp
      have hfil := @List.filter_cons_of_pos OddsDoc
        (fun x => x.game_id == d.game_id) d rest hd
      rw [hfil, List.map_cons, ← foldl_addBook_nil, List.foldl_cons]
      rfl

theorem aggregate_eq_aggSpec (docs : List OddsDoc) : aggregate docs = aggSpec docs :=
  aggregate_eq_aggSpec_fuel docs.length docs le_rfl

/-! ### Claim theorems -/

/-- C4: the Odds Query Service rejects any `hours_ahead` outside
`[1, 168]` with a validation error raised before any store access
(the result is a validation rejection no matter what the store holds),
rejects `limit = 501` likewise, accepts `hours_ahead = 1` and `168` and
`limit = 500`, and defaults omitted parameters to `hours_ahead = 48`,
`limit = 100`. -/
theorem C4_param_validation :
    (∀ (b t : Option String) (m : Option Rat) (l : Option Int) (h : Int)
        (now : Int) (store : Store), h < 1 ∨ 168 < h →
        get_odds ⟨b, t, m, some h, l⟩ now store
          = .error (.validation "hours_ahead"))
    ∧ (∀ (b t : Option String) (m : Option Rat) (now : Int) (store : Store),
        get_odds ⟨b, t, m, none, some 501⟩ now store
          = .error (.validation "limit"))
    ∧ parseOddsQuery ⟨none, none, none, some 1, none⟩ = .ok ⟨none, none, none, 1, 100⟩
    ∧ parseOddsQuery ⟨none, none, none, some 168, none⟩
        = .ok ⟨none, none, none, 168, 100⟩
    ∧ parseOddsQuery ⟨none, none, none, none, some 500⟩
        = .ok ⟨none, none, none, 48, 500⟩
    ∧ parseOddsQuery ⟨none, none, none, none, none⟩
        = .ok ⟨none, none, none, 48, 100⟩ := by
  refine ⟨?_, ?_, by decide, by decide, by decide, by decide⟩
  · intro b t m l h now store hcond
    have hp : parseOddsQuery ⟨b, t, m, some h, l⟩ = .error (.validation "hours_ahead") := by
      simp only [parseOddsQuery, Option.getD_some]
      rw [if_pos hcond]
    simp [get_odds, hp]
  · intro b t m now store
    have hp : parseOddsQuery ⟨b, t, m, none, some 501⟩
        = .error (.validation "limit") := by
      simp only [parseOddsQuery, Option.getD_none, Option.getD_some]
      rw [if_neg (by decide), if_pos (by decide)]
    simp [get_odds, hp]

/-- C4 witness: `hours_ahead = 0` and `169` are rejected and `limit =
501` is rejected, at concrete inputs, discharging the hypotheses of
`C4_param_validation`. -/
theorem C4_param_validation_witness :
    get_odds ⟨none, none, none, some 0, none⟩ 0 (fun _ => .ok [])
      = .error (.validation "hours_ahead")
    ∧ get_odds ⟨none, none, none, some 169, none⟩ 0 (fun _ => .ok [])
      = .error (.validation "hours_ahead")
    ∧ get_odds ⟨none, none, none, none, some 501⟩ 0 (fun _ => .ok [])
      = .error (.validation "limit") :=
  ⟨C4_param_validation.1 none none none none 0 0 (fun _ => .ok []) (Or.inl (by decide)),
   C4_param_validation.1 none none none none 169 0 (fun _ => .ok [])
     (Or.inr (by decide)),
   C4_param_validation.2.1 none none none 0 (fun _ => .ok [])⟩

/-- C10: `limit` is validated only against the upper bound 500: any
`limit ≤ 500`, including 0 and negative values, parses successfully
with that value, and a nonpositive `limit` makes the store-side cap
`limit * 5` nonpositive. -/
theorem C10_limit_lower_unchecked :
    (∀ l : Int, l ≤ 500 →
        parseOddsQuery ⟨none, none, none, none, some l⟩
          = .ok ⟨none, none, none, 48, l⟩)
    ∧ (∀ (now : Int) (p : OddsParams), p.limit ≤ 0 → (oddsQuery now p).cap ≤ 0)
    ∧ parseOddsQuery ⟨none, none, none, none, some 0⟩ = .ok ⟨none, none, none, 48, 0⟩
    ∧ parseOddsQuery ⟨none, none, none, none, some (-5)⟩
        = .ok ⟨none, none, none, 48, -5⟩ := by
  refine ⟨?_, ?_, by decide, by decide⟩
  · intro l hl
    simp only [parseOddsQuery, Option.getD_none, Option.getD_some]
    rw [if_neg (by decide), if_neg (by omega)]
  · intro now p hp
    show p.limit * 5 ≤ 0
    omega

/-- C10 witness: `limit = -1` is accepted and yields a store-side cap
of `-5 ≤ 0`, via `C10_limit_lower_unchecked`. -/
theorem C10_limit_lower_unchecked_witness :
    parseOddsQuery ⟨none, none, none, none, some (-1)⟩
      = .ok ⟨none, none, none, 48, -1⟩
    ∧ (oddsQuery 0 ⟨none, none, none, 48, -1⟩).cap ≤ 0 :=
  ⟨C10_limit_lower_unchecked.1 (-1) (by decide),
   C10_limit_lower_unchecked.2.1 0 ⟨none, none, none, 48, -1⟩ (by decide)⟩

/-- C9: both handlers are deterministic functions of the current time,
the parameters and the store response: two requests with the same
parameters at the same time against stores that answer every query
identically produce identical output. -/
theorem C9_deterministic (rawO : RawOddsQuery) (rawG : Option Int) (now : Int)
    (s1 s2 : Store) (hs : ∀ q, s1 q = s2 q) :
    get_odds rawO now s1 = get_odds rawO now s2
    ∧ get_upcoming_games rawG now s1 = get_upcoming_games rawG now s2 := by
  have hfun : s1 = s2 := funext hs
  rw [hfun]
  exact ⟨rfl, rfl⟩

/-- C9 witness: `C9_deterministic` applied at a concrete request and
two pointwise-equal stores. -/
theorem C9_deterministic_witness :
    get_odds ⟨none, none, none, none, none⟩ 0 (fun _ => .ok [baseDoc])
      = get_odds ⟨none, none, none, none, none⟩ 0 (fun _q => .ok [baseDoc])
    ∧ get_upcoming_games none 0 (fun _ => .ok [baseDoc])
      = get_upcoming_games none 0 (fun _q => .ok [baseDoc]) :=
  C9_deterministic ⟨none, none, none, none, none⟩ none 0
    (fun _ => .ok [baseDoc]) (fun _q => .ok [baseDoc]) (fun _ => rfl)

/-- C8: each handler issues exactly one bounded range query: the odds
handler's query is `commence_time > now`, `commence_time ≤ now +
hours_ahead`, ascending, cap `limit * 5`, and its result depends on
the store only through that one query; the games handler's query is
the same range with fixed cap 500 and no overscan. -/
theorem C8_single_range_query (now : Int) :
    (∀ (raw : RawOddsQuery) (p : OddsParams), parseOddsQuery raw = .ok p →
      oddsQuery now p
          = { lowerExclusive := now, upperInclusive := now + 3600 * p.hours_ahead,
              ascending := true, cap := p.limit * 5 }
        ∧ ∀ s1 s2 : Store, s1 (oddsQuery now p) = s2 (oddsQuery now p) →
            get_odds raw now s1 = get_odds raw now s2)
    ∧ (∀ (raw : Option Int) (h : Int), parseGamesQuery raw = .ok h →
      gamesQuery now h
          = { lowerExclusive := now, upperInclusive := now + 3600 * h,
              ascending := true, cap := 500 }
        ∧ ∀ s1 s2 : Store, s1 (gamesQuery now h) = s2 (gamesQuery now h) →
            get_upcoming_games raw now s1 = get_upcoming_games raw now s2) := by
  constructor
  · intro raw p hp
    refine ⟨rfl, ?_⟩
    intro s1 s2 hq
    simp only [get_odds, hp]
    rw [hq]
  · intro raw h hp
    refine ⟨rfl, ?_⟩
    intro s1 s2 hq
    simp only [get_upcoming_games, hp]
    rw [hq]

/-- C8 witness: the concrete query issued for the default parameters at
`now = 0`, via `C8_single_range_query`. -/
theorem C8_single_range_query_witness :
    oddsQuery 0 ⟨none, none, none, 48, 100⟩
      = { lowerExclusive := 0, upperInclusive := 0 + 3600 * 48,
          ascending := true, cap := 100 * 5 }
    ∧ gamesQuery 0 48
      = { lowerExclusive := 0, upperInclusive := 0 + 3600 * 48,
          ascending := true, cap := 500 } :=
  ⟨((C8_single_range_query 0).1 ⟨none, none, none, none, none⟩
      ⟨none, none, none, 48, 100⟩ (by decide)).1,
   ((C8_single_range_query 0).2 none 48 (by decide)).1⟩

/-- C3 counterexample: when the store query of the List-games operation
fails, the exception escapes the handler uncaught (there is no
try/except in `get_upcoming_games`), so the operation does not reject
with a server-error-class HTTP response carrying the cause text, contrary
to the claim that both operations do. -/
theorem C3_counterexample :
    get_upcoming_games none 0 (fun _ => Except.error "no index")
      = .error (.uncaught "no index")
    ∧ ¬ carriesCause (ApiError.uncaught "no index") "no index" := by
  constructor
  · rfl
  · rintro ⟨code, detail, heq, -, -⟩
    cases heq

/-- C3 (amended): if the store range query fails, neither operation
produces a result list; the List-odds operation rejects with an HTTP
500 whose detail carries the underlying cause text, while the
List-games operation propagates the store failure as an uncaught
exception (without wrapping it in an HTTP rejection). -/
theorem C3_store_failure (rawO : RawOddsQuery) (rawG : Option Int) (now : Int)
    (msg : String) (store : Store)
    (hstore : ∀ q, store q = .error msg) :
    (∀ p, parseOddsQuery rawO = .ok p →
      get_odds rawO now store
          = .error (.http 500
              ("Query failed. You may need to create a Firestore index. Error: " ++ msg))
        ∧ ∃ e, get_odds rawO now store = .error e ∧ carriesCause e msg)
    ∧ (∀ h, parseGamesQuery rawG = .ok h →
        get_upcoming_games rawG now store = .error (.uncaught msg)) := by
  constructor
  · intro p hp
    have hmain : get_odds rawO now store
        = .error (.http 500
            ("Query failed. You may need to create a Firestore index. Error: " ++ msg)) := by
      simp [get_odds, hp, hstore]
    refine ⟨hmain, ⟨_, hmain, ?_⟩⟩
    refine ⟨500, _, rfl, le_refl 500,
      "Query failed. You may need to create a Firestore index. Error: ", "", ?_⟩
    simp
  · intro h hp
    simp [get_upcoming_games, hp, hstore]

/-- C3 witness: `C3_store_failure` at a concrete failing store. -/
theorem C3_store_failure_witness :
    get_odds ⟨none, none, none, none, none⟩ 0 (fun _ => Except.error "boom")
        = .error (.http 500
            ("Query failed. You may need to create a Firestore index. Error: " ++ "boom"))
    ∧ get_upcoming_games none 0 (fun _ => Except.error "boom")
        = .error (.uncaught "boom") :=
  ⟨((C3_store_failure ⟨none, none, none, none, none⟩ none 0 "boom"
      (fun _ => Except.error "boom") (fun _ => rfl)).1
      ⟨none, none, none, 48, 100⟩ (by decide)).1,
   (C3_store_failure ⟨none, none, none, none, none⟩ none 0 "boom"
      (fun _ => Except.error "boom") (fun _ => rfl)).2 48 (by decide)⟩

/-- C7: when `min_ev` is specified, every returned record carries an EV
value at least `min_ev` (records with absent or lower EV are dropped);
in particular, with `min_ev = 5` and a store holding one record with EV
3 and one with EV 7, only the latter is returned. -/
theorem C7_min_ev (raw : RawOddsQuery) (p : OddsParams) (now : Int) (store : Store)
    (docs : List OddsDoc) (m : Rat) (out : List OddsOut)
    (hp : parseOddsQuery raw = .ok p) (hm : p.min_ev = some m)
    (hst : store (oddsQuery now p) = .ok docs)
    (hout : get_odds raw now store = .ok out) :
    (∀ r ∈ out, ∃ e, r.ev_percentage = some e ∧ m ≤ e)
    ∧ get_odds ⟨none, none, some 5, none, none⟩ 0 (fun _ => .ok [lowEvDoc, evDoc])
      = .ok [toOut evDoc] := by
  constructor
  · intro r hr
    have h1 := get_odds_ok hp hst
    have h2 : oddsLoop p docs [] = out := Except.ok.inj (h1.symm.trans hout)
    rw [← h2] at hr
    obtain ⟨d, hd, hkeep, rfl⟩ := mem_oddsLoop hr
    simp only [keepDoc, Bool.and_eq_true] at hkeep
    obtain ⟨-, hev⟩ := hkeep
    rw [hm] at hev
    cases hevd : d.ev_percentage with
    | none =>
      rw [hevd] at hev
      simp at hev
    | some e =>
      rw [hevd] at hev
      simp only [decide_eq_true_eq] at hev
      exact ⟨e, by rw [toOut_ev_percentage, hevd], hev⟩
  · decide

/-- C1 counterexample: the bookmaker filter specified as the empty
string is dropped by the Python truthiness test (`if bookmaker and
...`), so a record whose bookmaker differs from the requested (empty)
value is still returned even though its commence time lies in the
queried range. -/
theorem C1_counterexample :
    ((0 : Int) < baseDoc.commence_time ∧ baseDoc.commence_time ≤ 0 + 3600 * 48)
    ∧ get_odds ⟨some "", none, none, none, none⟩ 0 (fun _ => .ok [baseDoc])
        = .ok [toOut baseDoc]
    ∧ (toOut baseDoc).bookmaker ≠ "" := by
  refine ⟨by decide, by decide, by decide⟩

/-- C1 (amended): for every valid filter combination and store response
whose rows lie in the queried range, every output record has
`now < commence_time ≤ now + hours_ahead`, and when `bookmaker` or
`team` was specified as a non-empty string the record matches it
exactly (an empty-string value is treated as unspecified), and when
`min_ev` was specified the record's EV is present and at least
`min_ev`. -/
theorem C1_output_filters (raw : RawOddsQuery) (p : OddsParams) (now : Int)
    (store : Store) (docs : List OddsDoc) (out : List OddsOut)
    (hp : parseOddsQuery raw = .ok p)
    (hst : store (oddsQuery now p) = .ok docs)
    (hrange : ∀ d ∈ docs, now < d.commence_time ∧
      d.commence_time ≤ now + 3600 * p.hours_ahead)
    (hout : get_odds raw now store = .ok out) :
    ∀ r ∈ out,
      (now < r.commence_time ∧ r.commence_time ≤ now + 3600 * p.hours_ahead)
      ∧ (∀ b, p.bookmaker = some b → b ≠ "" → r.bookmaker = b)
      ∧ (∀ t, p.team = some t → t ≠ "" → r.team = t)
      ∧ (∀ m, p.min_ev = some m → ∃ e, r.ev_percentage = some e ∧ m ≤ e) := by
  have h1 := get_odds_ok hp hst
  have h2 : oddsLoop p docs [] = out := Except.ok.inj (h1.symm.trans hout)
  intro r hr
  rw [← h2] at hr
  obtain ⟨d, hd, hkeep, rfl⟩ := mem_oddsLoop hr
  simp only [keepDoc, Bool.and_eq_true] at hkeep
  obtain ⟨⟨hb, ht⟩, hev⟩ := hkeep
  refine ⟨by simpa using hrange d hd, ?_, ?_, ?_⟩
  · intro b hpb hbne
    rw [hpb] at hb
    simp only [Bool.or_eq_true, beq_iff_eq] at hb
    rcases hb with hb1 | hb2
    · exact absurd hb1 hbne
    · rw [toOut_bookmaker]
      exact hb2
  · intro t hpt htne
    rw [hpt] at ht
    simp only [Bool.or_eq_true, beq_iff_eq] at ht
    rcases ht with ht1 | ht2
    · exact absurd ht1 htne
    · rw [toOut_team]
      exact ht2
  · intro m hpm
    rw [hpm] at hev
    cases hevd : d.ev_percentage with
    | none =>
      rw [hevd] at hev
      simp at hev
    | some e =>
      rw [hevd] at hev
      simp only [decide_eq_true_eq] at hev
      exact ⟨e, by rw [toOut_ev_percentage, hevd], hev⟩

/-- C1 witness: `C1_output_filters` at a concrete request with all
three filters specified. -/
theorem C1_output_filters_witness :
    ((0 : Int) < (toOut evDoc).commence_time
      ∧ (toOut evDoc).commence_time ≤ 0 + 3600 * (24 : Int))
    ∧ (toOut evDoc).bookmaker = "draftkings" :=
  have h := C1_output_filters
    ⟨some "draftkings", some "Lakers", some 5, some 24, some 10⟩
    ⟨some "draftkings", some "Lakers", some 5, 24, 10⟩ 0
    (fun _ => .ok [evDoc]) [evDoc] [toOut evDoc]
    (by decide) rfl (by decide) (by decide)
  ⟨(h (toOut evDoc) (by decide)).1,
   (h (toOut evDoc) (by decide)).2.1 "draftkings" rfl (by decide)⟩

/-- C5 counterexample: `limit = -1` passes validation (no lower bound),
and the loop appends a first record before checking the break
condition, so the output length (1) exceeds the requested limit (-1):
the claimed bound fails for a valid request. -/
theorem C5_counterexample :
    parseOddsQuery ⟨none, none, none, none, some (-1)⟩
      = .ok ⟨none, none, none, 48, -1⟩
    ∧ get_odds ⟨none, none, none, none, some (-1)⟩ 0 (fun _ => .ok [baseDoc])
        = .ok [toOut baseDoc]
    ∧ ¬ ((([toOut baseDoc] : List OddsOut).length : Int) ≤ -1) := by
  refine ⟨by decide, by decide, by decide⟩

/-- C5 (amended): for every valid request with `limit ≥ 1` and every
store response, the output is exactly the first `limit` surviving
records — records beyond the limit are not considered, the length never
exceeds `limit`, and when fewer rows survive filtering the shorter list
is returned without error. -/
theorem C5_limit_cap (raw : RawOddsQuery) (p : OddsParams) (now : Int)
    (store : Store) (docs : List OddsDoc)
    (hp : parseOddsQuery raw = .ok p) (hpos : 1 ≤ p.limit)
    (hst : store (oddsQuery now p) = .ok docs) :
    get_odds raw now store
      = .ok (((docs.filter (keepDoc p)).map toOut).take p.limit.toNat)
    ∧ ∀ out, get_odds raw now store = .ok out → (out.length : Int) ≤ p.limit := by
  have h1 := get_odds_ok hp hst
  have h2 := oddsLoop_nil_eq_take docs hpos
  constructor
  · rw [h1, h2]
  · intro out hout
    have h3 : oddsLoop p docs [] = out := Except.ok.inj (h1.symm.trans hout)
    rw [← h3, h2]
    have h4 : (List.take p.limit.toNat
        ((docs.filter (keepDoc p)).map toOut)).length ≤ p.limit.toNat := by
      rw [List.length_take]
      exact Nat.min_le_left _ _
    omega

/-- C5 witness: `C5_limit_cap` with `limit = 1` against a two-document
store. -/
theorem C5_limit_cap_witness :
    get_odds ⟨none, none, none, none, some 1⟩ 0 (fun _ => .ok [baseDoc, laterDoc])
      = .ok ((([baseDoc, laterDoc].filter
          (keepDoc ⟨none, none, none, 48, 1⟩)).map toOut).take (1 : Int).toNat) :=
  (C5_limit_cap ⟨none, none, none, none, some 1⟩ ⟨none, none, none, 48, 1⟩ 0
    (fun _ => .ok [baseDoc, laterDoc]) [baseDoc, laterDoc]
    (by decide) (by decide) rfl).1

/-- C6: if the store response is sorted ascending by commence time (as
the issued query requests), the output of the odds handler is sorted
ascending by commence time, and the issued query does request ascending
order. -/
theorem C6_sorted (raw : RawOddsQuery) (p : OddsParams) (now : Int)
    (store : Store) (docs : List OddsDoc) (out : List OddsOut)
    (hp : parseOddsQuery raw = .ok p)
    (hst : store (oddsQuery now p) = .ok docs)
    (hsorted : docs.Pairwise (fun a b => a.commence_time ≤ b.commence_time))
    (hout : get_odds raw now store = .ok out) :
    out.Pairwise (fun a b => a.commence_time ≤ b.commence_time)
    ∧ (oddsQuery now p).ascending = true := by
  refine ⟨?_, rfl⟩
  have h1 := get_odds_ok hp hst
  have h2 : oddsLoop p docs [] = out := Except.ok.inj (h1.symm.trans hout)
  obtain ⟨t, ht, hs⟩ := oddsLoop_append_sublist p docs []
  rw [List.nil_append] at ht
  rw [← h2, ht]
  refine List.Pairwise.sublist hs ?_
  rw [List.pairwise_map]
  refine (hsorted.filter (keepDoc p)).imp ?_
  intro a b hab
  simpa using hab

/-- C6 witness: `C6_sorted` against a concrete sorted store response. -/
theorem C6_sorted_witness :
    ([toOut baseDoc, toOut laterDoc] : List OddsOut).Pairwise
      (fun a b => a.commence_time ≤ b.commence_time) :=
  (C6_sorted ⟨none, none, none, none, none⟩ ⟨none, none, none, 48, 100⟩ 0
    (fun _ => .ok [baseDoc, laterDoc]) [baseDoc, laterDoc]
    [toOut baseDoc, toOut laterDoc] (by decide) rfl (by decide) (by decide)).1

/-- C2: for every store response, the games handler returns exactly
`aggSpec docs`: one `GameView` per distinct game id in
first-encountered order, seeded with the home team, away team and
canonicalized commence time of the first document carrying that id,
whose bookmaker dict groups that game's documents by bookmaker —
one key per distinct bookmaker in first-encountered order, entries in
input arrival order. -/
theorem C2_games_aggregation (raw : Option Int) (h now : Int) (store : Store)
    (docs : List OddsDoc)
    (hp : parseGamesQuery raw = .ok h)
    (hst : store (gamesQuery now h) = .ok docs) :
    get_upcoming_games raw now store = .ok (aggSpec docs) := by
  simp only [get_upcoming_games, hp, hst]
  rw [aggregate_eq_aggSpec]

/-- C2 witness: `C2_games_aggregation` against a concrete store holding
two games and two bookmakers. -/
theorem C2_games_aggregation_witness :
    get_upcoming_games none 0 (fun _ => .ok [baseDoc, laterDoc, evDoc])
      = .ok (aggSpec [baseDoc, laterDoc, evDoc]) :=
  C2_games_aggregation none 48 0 (fun _ => .ok [baseDoc, laterDoc, evDoc])
    [baseDoc, laterDoc, evDoc] (by decide) rfl

/-- C7 witness: `C7_min_ev` at the concrete `min_ev = 5` scenario. -/
theorem C7_min_ev_witness :
    ∃ e, (toOut evDoc).ev_percentage = some e ∧ (5 : Rat) ≤ e :=
  have h := C7_min_ev ⟨none, none, some 5, none, none⟩
    ⟨none, none, some 5, 48, 100⟩ 0 (fun _ => .ok [lowEvDoc, evDoc])
    [lowEvDoc, evDoc] 5 [toOut evDoc] (by decide) rfl rfl (by decide)
  h.1 (toOut evDoc) (by decide)
